import Mathlib

/-!
Shallow embedding of `src/classes.js` (Pill-reminder-pi): the `Medication`,
`Person` and `UserManager` classes and their operations, together with proofs
of the specified properties.

Modelling conventions:
* The JS `Date` host type is modelled by the instant it denotes, in
  milliseconds since the Unix epoch (an `Int`).
* Console output (`console.log`, `console.warn`, `console.error`) is modelled
  by a list of `LogEntry` values emitted by each operation.
* Network effects (`fetch`) are modelled by passing each operation the outcome
  of its fetch call (`FetchOutcome`): either a transport failure (the awaited
  promise rejects with a message) or a response carrying a status code and the
  result of reading its body with `res.json()` (which can itself fail).
  Each operation also reports the HTTP requests it issued.
* `async` methods that mutate `this` become functions from the receiver state
  to the updated state plus their emitted requests and logs; a JS method that
  always returns normally (every exception caught) becomes a total function.
-/

namespace PillReminder

/-- The JS `Date` host type, modelled as the instant it denotes in
milliseconds since the Unix epoch. -/
abbrev Date := Int

/-- The civil day (UTC) that a `Date` falls on, as a day number: floor
division of the epoch-millisecond instant by the number of milliseconds in a
day. Two dates denote the same calendar date iff their day numbers agree. -/
def calendarDate (d : Date) : Int := Int.fdiv d 86400000

/-- An ISO-8601 timestamp string as produced by `Date.prototype.toISOString`,
modelled by the instant it denotes: on the dates this program produces,
`toISOString` is injective and `new Date(s)` recovers the exact instant
(millisecond precision in both directions), so such a string is determined
by, and determines, its instant. -/
structure ISOString where
  ms : Int
deriving DecidableEq, Repr

/-- `Date.prototype.toISOString` (host primitive): the ISO string denoting
this instant. -/
def Date.toISOString (d : Date) : ISOString := ⟨d⟩

/-- `new Date(s)` on an ISO-8601 string (host primitive): recovers the
instant the string denotes. -/
def parseDate (s : ISOString) : Date := s.ms

/-- `Date.prototype.toDateString` (host primitive) renders only the calendar
date, with no time component; it is modelled by the decimal rendering of the
day number, since the exact English wording is a host detail the program
never inspects. It depends only on `calendarDate`. -/
def Date.toDateString (d : Date) : String := toString (calendarDate d)

/-- One console line: `console.warn`, `console.error` or `console.log`. -/
inductive LogEntry where
  | warn (msg : String)
  | error (msg : String)
  | log (msg : String)
deriving DecidableEq, Repr

/-- The `Medication` class: `name`, `frequencyPerDay`, `taken`, `refillDate`
(already normalized to a date value by the constructor). -/
structure Medication where
  name : String
  frequencyPerDay : Int
  taken : Bool
  refillDate : Date
deriving DecidableEq, Repr

/-- The `Medication` constructor argument for `refillDate`: either already a
`Date` (`refillDate instanceof Date`) or a string to be parsed. -/
inductive DateInput where
  | date (d : Date)
  | str (s : ISOString)
deriving DecidableEq, Repr

/-- `new Medication(name, frequencyPerDay, taken, refillDate)`: stores the
fields, normalizing `refillDate` to a date value
(`refillDate instanceof Date ? refillDate : new Date(refillDate)`). -/
def Medication.make (name : String) (frequencyPerDay : Int) (taken : Bool)
    (refillDate : DateInput) : Medication :=
  ⟨name, frequencyPerDay, taken,
    match refillDate with
    | .date d => d
    | .str s => parseDate s⟩

/-- `Medication.prototype.markAsTaken`: sets `taken = true`. -/
def Medication.markAsTaken (m : Medication) : Medication :=
  { m with taken := true }

/-- `Medication.prototype.resetTakenStatus`: sets `taken = false`. -/
def Medication.resetTakenStatus (m : Medication) : Medication :=
  { m with taken := false }

/-- The `Person` class: `name` and the owned `medications` list. -/
structure Person where
  name : String
  medications : List Medication
deriving DecidableEq, Repr

/-- `new Person(name)`: `medications` initialized empty. -/
def Person.new (name : String) : Person := ⟨name, []⟩

/-- `Person.prototype.addMedication(med)`: if the list already holds 5 or
more medications, warn (`"<name> already has 5 medications."`) and leave the
person unchanged; otherwise push `med` onto the end of the list. Returns the
updated person and the emitted console output. -/
def Person.addMedication (p : Person) (med : Medication) : Person × List LogEntry :=
  if p.medications.length ≥ 5 then
    (p, [.warn (p.name ++ " already has 5 medications.")])
  else
    ({ p with medications := p.medications ++ [med] }, [])

/-- The loop body of a sequence of `addMedication` calls: perform one call on
the current person and append its console output. -/
def addMedStep (acc : Person × List LogEntry) (m : Medication) :
    Person × List LogEntry :=
  let r := acc.1.addMedication m
  (r.1, acc.2 ++ r.2)

/-- A sequence of `addMedication` calls on one person (used to state
properties of call sequences, and as the body of the `forEach` loop in
`loadAllPeople`): folds `addMedication` over the list, accumulating the
emitted console output. -/
def Person.addMedList (p : Person) (ms : List Medication) : Person × List LogEntry :=
  ms.foldl addMedStep (p, [])

/-- `Person.prototype.listMedications`: logs a header line and then one line
per medication (1-indexed) showing name, frequency, taken status, and the
refill date rendered with `toDateString`. Pure read: returns only the
emitted console output. -/
def Person.listMedications (p : Person) : List LogEntry :=
  .log ("Medications for " ++ p.name ++ ":") ::
    (p.medications.enum.map fun im =>
      .log (toString (im.1 + 1) ++ ". " ++ im.2.name ++ " | "
        ++ toString im.2.frequencyPerDay ++ "/day | Taken: "
        ++ toString im.2.taken ++ " | Refill: " ++ im.2.refillDate.toDateString))

/-- The wire format of one medication inside a `/users` payload or response:
`{name, frequencyPerDay, taken, refillDate: <ISO-8601 string>}`. -/
structure MedRecord where
  name : String
  frequencyPerDay : Int
  taken : Bool
  refillDate : ISOString
deriving DecidableEq, Repr

/-- The wire format of one person in a `/users` payload or response:
`{name, medications: [...]}`. -/
structure PersonRecord where
  name : String
  medications : List MedRecord
deriving DecidableEq, Repr

/-- An HTTP request issued by the manager: `POST`, `GET` or `DELETE` on a
URL, with the serialized person payload for `POST`. -/
inductive Request where
  | post (url : String) (body : PersonRecord)
  | get (url : String)
  | delete (url : String)
deriving DecidableEq, Repr

/-- The serialization of one medication in `savePersonToServer`'s request
body: `{name: m.name, frequencyPerDay: m.frequencyPerDay, taken: m.taken,
refillDate: m.refillDate.toISOString()}`. -/
def serializeMedication (m : Medication) : MedRecord :=
  ⟨m.name, m.frequencyPerDay, m.taken, m.refillDate.toISOString⟩

/-- The serialization of a person in `savePersonToServer`'s request body:
`{name: person.name, medications: person.medications.map(...)}`. -/
def serializePerson (p : Person) : PersonRecord :=
  ⟨p.name, p.medications.map serializeMedication⟩

/-- The medication reconstruction in `loadAllPeople`:
`new Medication(m.name, m.frequencyPerDay, m.taken, new Date(m.refillDate))`. -/
def parseMedication (m : MedRecord) : Medication :=
  ⟨m.name, m.frequencyPerDay, m.taken, parseDate m.refillDate⟩

/-- The person reconstruction in `loadAllPeople`'s `data.map` callback:
`const person = new Person(p.name); p.medications.forEach(m =>
person.addMedication(new Medication(...))); return person`. Returns the
rebuilt person and the console output the loop emitted. -/
def parsePerson (rec : PersonRecord) : Person × List LogEntry :=
  (Person.new rec.name).addMedList (rec.medications.map parseMedication)

/-- The outcome of one `await fetch(...)` (plus reading its body): either the
promise rejects with a transport-level error message, or a response arrives
with a status code and body-read result of type `β`. -/
inductive FetchOutcome (β : Type) where
  | transportError (msg : String)
  | response (status : Nat) (body : β)
deriving DecidableEq, Repr

/-- `res.ok` (host primitive): the status is in the 2xx range. -/
def statusOk (status : Nat) : Bool := decide (200 ≤ status ∧ status < 300)

/-- The body-read outcome for `savePersonToServer`: `res.json()` either
throws (message) or yields a record whose optional `userId` field is read. -/
abbrev SaveBody := Except String (Option String)

/-- The body-read outcome for `loadAllPeople`: `res.json()` either throws
(message) or yields an array of person-shaped records. -/
abbrev LoadBody := Except String (List PersonRecord)

/-- The `UserManager` class: `apiBaseUrl` and the owned `people` list. -/
structure UserManager where
  apiBaseUrl : String
  people : List Person
deriving DecidableEq, Repr

/-- `new UserManager(apiBaseUrl)`: `people` initialized empty. -/
def UserManager.new (apiBaseUrl : String) : UserManager := ⟨apiBaseUrl, []⟩

/-- The `try` block of `savePersonToServer`: issues the `POST`, throws
`"Error saving person: <status>"` on a non-ok status, rethrows a body-read
failure, and on success logs `"Saved <name> (User ID: <id or N/A>)"`.
`Except.error` carries the thrown message. -/
def savePersonTry (person : Person) (outcome : FetchOutcome SaveBody) :
    Except String (List LogEntry) :=
  match outcome with
  | .transportError msg => .error msg
  | .response status body =>
      if statusOk status then
        match body with
        | .error msg => .error msg
        | .ok userId =>
            .ok [.log ("Saved " ++ person.name ++ " (User ID: "
              ++ userId.getD "N/A" ++ ")")]
      else .error ("Error saving person: " ++ toString status)

/-- `UserManager.prototype.savePersonToServer(person)`: runs the `try` block
and catches any thrown error, logging `"Failed to save user: <message>"`.
Always returns normally; never touches `this.people`. Reports the updated
manager, the requests issued (always the one `POST` with the serialized
person), and the console output. -/
def UserManager.savePersonToServer (um : UserManager) (person : Person)
    (outcome : FetchOutcome SaveBody) :
    UserManager × List Request × List LogEntry :=
  let req := Request.post (um.apiBaseUrl ++ "/users") (serializePerson person)
  match savePersonTry person outcome with
  | .ok logs => (um, [req], logs)
  | .error msg => (um, [req], [.error ("Failed to save user: " ++ msg)])

/-- `UserManager.prototype.addPerson(person)`: if `people` already holds 5 or
more, warn (`"Cannot add more than 5 people."`) and return without issuing
any request; otherwise push `person` onto `people` and then await
`savePersonToServer(person)`. -/
def UserManager.addPerson (um : UserManager) (person : Person)
    (outcome : FetchOutcome SaveBody) :
    UserManager × List Request × List LogEntry :=
  if um.people.length ≥ 5 then
    (um, [], [.warn "Cannot add more than 5 people."])
  else
    UserManager.savePersonToServer
      { um with people := um.people ++ [person] } person outcome

/-- The `try` block of `loadAllPeople`: issues the `GET`, throws
`"Error loading data: <status>"` on a non-ok status, rethrows a body-read
failure, and on success rebuilds every person record with `parsePerson` and
logs `"Users loaded from API:"` (the host also prints the loaded array).
On success it yields the new `people` value and the emitted output. -/
def loadAllPeopleTry (outcome : FetchOutcome LoadBody) :
    Except String (List Person × List LogEntry) :=
  match outcome with
  | .transportError msg => .error msg
  | .response status body =>
      if statusOk status then
        match body with
        | .error msg => .error msg
        | .ok data =>
            let parsed := data.map parsePerson
            .ok (parsed.map Prod.fst,
              (parsed.map Prod.snd).flatten ++ [.log "Users loaded from API:"])
      else .error ("Error loading data: " ++ toString status)

/-- `UserManager.prototype.loadAllPeople()`: runs the `try` block; on success
assigns the freshly rebuilt list to `this.people` (wholesale replacement); on
any thrown error catches it and logs `"Failed to load users: <message>"`,
leaving `this.people` untouched. -/
def UserManager.loadAllPeople (um : UserManager) (outcome : FetchOutcome LoadBody) :
    UserManager × List Request × List LogEntry :=
  let req := Request.get (um.apiBaseUrl ++ "/users")
  match loadAllPeopleTry outcome with
  | .ok r => ({ um with people := r.1 }, [req], r.2)
  | .error msg => (um, [req], [.error ("Failed to load users: " ++ msg)])

/-- `UserManager.prototype.clearAllDataOnServer()`: issues the `DELETE`; if
the fetch completes (any status — the response is never inspected), sets
`this.people = []` and logs confirmation; if the fetch throws, catches it and
logs `"Failed to clear data: <message>"`, leaving `this.people` untouched. -/
def UserManager.clearAllDataOnServer (um : UserManager)
    (outcome : FetchOutcome Unit) :
    UserManager × List Request × List LogEntry :=
  let req := Request.delete (um.apiBaseUrl ++ "/users")
  match outcome with
  | .transportError msg =>
      (um, [req], [.error ("Failed to clear data: " ++ msg)])
  | .response _ _ =>
      ({ um with people := [] }, [req], [.log "All user data cleared on server"])

/-- `UserManager.prototype.listAll()`: `this.people.forEach(p =>
p.listMedications())`. Pure read: the manager is unchanged and the persons'
reports are emitted in order. -/
def UserManager.listAll (um : UserManager) : UserManager × List LogEntry :=
  (um, (um.people.map Person.listMedications).flatten)

/-- The loop body of a sequence of `addPerson` calls: perform one call (with
the outcome of its own push) on the current manager and append the issued
requests and console output. -/
def addPersonStep (acc : UserManager × List Request × List LogEntry)
    (c : Person × FetchOutcome SaveBody) :
    UserManager × List Request × List LogEntry :=
  let r := acc.1.addPerson c.1 c.2
  (r.1, acc.2.1 ++ r.2.1, acc.2.2 ++ r.2.2)

/-- A sequence of `addPerson` calls on one manager (each with the outcome of
its own push), accumulating the issued requests and console output. -/
def UserManager.addPeople (um : UserManager)
    (calls : List (Person × FetchOutcome SaveBody)) :
    UserManager × List Request × List LogEntry :=
  calls.foldl addPersonStep (um, [], [])

/-! ### Helper lemmas -/

/-- Parsing undoes serialization on a single medication: `new Date` on the
ISO string recovers the stored refill instant, and the other three fields are
copied verbatim in both directions. -/
theorem parseMedication_serializeMedication (m : Medication) :
    parseMedication (serializeMedication m) = m := by
  cases m
  rfl

/-- Unfolding one `addMedStep`. -/
theorem addMedStep_eq (p : Person) (l : List LogEntry) (m : Medication) :
    addMedStep (p, l) m = ((p.addMedication m).1, l ++ (p.addMedication m).2) :=
  rfl

/-- Running the `addMedication` fold from an arbitrary log accumulator only
prepends that accumulator to the emitted output. -/
theorem Person.addMedList_acc (ms : List Medication) (p : Person) (l : List LogEntry) :
    ms.foldl addMedStep (p, l)
      = ((p.addMedList ms).1, l ++ (p.addMedList ms).2) := by
  induction ms generalizing p l with
  | nil => simp [Person.addMedList]
  | cons m ms ih =>
      simp only [Person.addMedList, List.foldl_cons]
      rw [addMedStep_eq, addMedStep_eq, ih, ih]
      simp [List.append_assoc]

/-- Unfolding one `addMedication` call off the front of a call sequence. -/
theorem Person.addMedList_cons (p : Person) (m : Medication) (ms : List Medication) :
    p.addMedList (m :: ms)
      = (((p.addMedication m).1.addMedList ms).1,
         (p.addMedication m).2 ++ ((p.addMedication m).1.addMedList ms).2) :=
  Person.addMedList_acc ms (p.addMedication m).1 (p.addMedication m).2

/-- Closed form of a sequence of `addMedication` calls starting below the
cap: the first `5 - len` calls append in order, every later call is rejected
and emits one warning naming the person. -/
theorem Person.addMedList_spec (ms : List Medication) (p : Person)
    (h : p.medications.length ≤ 5) :
    (p.addMedList ms).1
        = { p with medications :=
              p.medications ++ ms.take (5 - p.medications.length) } ∧
    (p.addMedList ms).2
        = List.replicate (p.medications.length + ms.length - 5)
            (.warn (p.name ++ " already has 5 medications.")) := by
  induction ms generalizing p with
  | nil =>
      have h0 : p.medications.length + 0 - 5 = 0 := by omega
      have h0' : p.medications.length - 5 = 0 := by omega
      constructor
      · cases p; simp [Person.addMedList]
      · simp [Person.addMedList, h0, h0']
  | cons m ms ih =>
      rw [Person.addMedList_cons]
      by_cases hlt : p.medications.length < 5
      · have hbr : ¬ p.medications.length ≥ 5 := by omega
        have hmed : p.addMedication m
            = ({ p with medications := p.medications ++ [m] }, []) := by
          simp [Person.addMedication, hbr]
        obtain ⟨ih1, ih2⟩ := ih { p with medications := p.medications ++ [m] }
          (by simp; omega)
        rw [hmed]
        constructor
        · simp only [ih1]
          have htake : (m :: ms).take (5 - p.medications.length)
              = m :: ms.take (5 - (p.medications.length + 1)) := by
            have h5 : 5 - p.medications.length
                = (5 - (p.medications.length + 1)) + 1 := by omega
            rw [h5, List.take_succ_cons]
          simp [htake]
        · simp only [ih2, List.nil_append]
          congr 1
          simp
          omega
      · have heq : p.medications.length = 5 := by omega
        have hbr : p.medications.length ≥ 5 := by omega
        have hmed : p.addMedication m
            = (p, [.warn (p.name ++ " already has 5 medications.")]) := by
          simp [Person.addMedication, hbr]
        obtain ⟨ih1, ih2⟩ := ih p h
        rw [hmed]
        constructor
        · simpa [heq] using ih1
        · rw [ih2]
          have hc : p.medications.length + (m :: ms).length - 5 = ms.length + 1 := by
            simp
            omega
          have hc2 : p.medications.length + ms.length - 5 = ms.length := by omega
          rw [hc, hc2, List.replicate_succ ]
          rfl

/-- Closed form of the person reconstruction in `loadAllPeople`: the rebuilt
person carries the record's name and the first five medication records (in
record order), and one warning is emitted per excess record. -/
theorem parsePerson_spec (rec : PersonRecord) :
    (parsePerson rec).1
        = ⟨rec.name, (rec.medications.take 5).map parseMedication⟩ ∧
    (parsePerson rec).2
        = List.replicate (rec.medications.length - 5)
            (.warn (rec.name ++ " already has 5 medications.")) := by
  obtain ⟨h1, h2⟩ := Person.addMedList_spec (rec.medications.map parseMedication)
    (Person.new rec.name) (by simp [Person.new])
  unfold parsePerson
  constructor
  · rw [h1]
    simp [Person.new, List.map_take]
  · rw [h2]
    simp [Person.new]

/-- `savePersonToServer` never changes the manager state, whatever the fetch
outcome. -/
theorem UserManager.savePersonToServer_fst (um : UserManager) (person : Person)
    (o : FetchOutcome SaveBody) :
    (um.savePersonToServer person o).1 = um := by
  unfold UserManager.savePersonToServer
  cases savePersonTry person o <;> rfl

/-- `addPerson` below the cap: the person is appended and exactly one `POST`
carrying the serialized person is issued, whatever the fetch outcome. -/
theorem UserManager.addPerson_lt (um : UserManager) (person : Person)
    (o : FetchOutcome SaveBody) (h : um.people.length < 5) :
    (um.addPerson person o).1 = { um with people := um.people ++ [person] } ∧
    (um.addPerson person o).2.1
      = [Request.post (um.apiBaseUrl ++ "/users") (serializePerson person)] := by
  have hbr : ¬ um.people.length ≥ 5 := by omega
  unfold UserManager.addPerson
  simp only [hbr, if_false]
  constructor
  · exact UserManager.savePersonToServer_fst _ _ _
  · unfold UserManager.savePersonToServer
    cases savePersonTry person o <;> rfl

/-- `addPerson` at or above the cap: pure no-op apart from the warning, with
no request issued. -/
theorem UserManager.addPerson_ge (um : UserManager) (person : Person)
    (o : FetchOutcome SaveBody) (h : 5 ≤ um.people.length) :
    um.addPerson person o = (um, [], [.warn "Cannot add more than 5 people."]) := by
  unfold UserManager.addPerson
  simp [h]

/-- The manager-state component of an `addPerson` call sequence ignores the
request/log accumulators. -/
theorem UserManager.addPeople_fst (calls : List (Person × FetchOutcome SaveBody))
    (um : UserManager) (reqs : List Request) (logs : List LogEntry) :
    (calls.foldl addPersonStep (um, reqs, logs)).1
      = calls.foldl (fun u c => (u.addPerson c.1 c.2).1) um := by
  induction calls generalizing um reqs logs with
  | nil => rfl
  | cons c cs ih => simp only [List.foldl_cons]; exact ih _ _ _

/-- Closed form of the local `people` list after a sequence of `addPerson`
calls starting below the cap: the first `5 - len` persons are appended in
call order, the rest are rejected. -/
theorem UserManager.addPeople_people (calls : List (Person × FetchOutcome SaveBody))
    (um : UserManager) (h : um.people.length ≤ 5) :
    (um.addPeople calls).1.people
      = um.people ++ (calls.map Prod.fst).take (5 - um.people.length) := by
  unfold UserManager.addPeople
  rw [UserManager.addPeople_fst]
  induction calls generalizing um with
  | nil => simp
  | cons c cs ih =>
      simp only [List.foldl_cons]
      by_cases hlt : um.people.length < 5
      · have h1 := (UserManager.addPerson_lt um c.1 c.2 hlt).1
        rw [h1, ih { um with people := um.people ++ [c.1] } (by simp; omega)]
        have htake : (c.1 :: cs.map Prod.fst).take (5 - um.people.length)
            = c.1 :: (cs.map Prod.fst).take (5 - (um.people.length + 1)) := by
          have h5 : 5 - um.people.length = (5 - (um.people.length + 1)) + 1 := by
            omega
          rw [h5, List.take_succ_cons]
        simp [htake]
      · have hge : 5 ≤ um.people.length := by omega
        have heq : um.people.length = 5 := by omega
        rw [UserManager.addPerson_ge um c.1 c.2 hge, ih um h]
        simp [heq]

/-- Closed form of a successful `loadAllPeople`: the `GET` is issued, every
record is rebuilt with `parsePerson`, and the local list is replaced
wholesale by the rebuilt list (the old `people` value does not appear). -/
theorem UserManager.loadAllPeople_success (um : UserManager) (s : Nat)
    (data : List PersonRecord) (hs : statusOk s = true) :
    um.loadAllPeople (.response s (.ok data))
      = ({ um with people := data.map (fun r => (parsePerson r).1) },
         [Request.get (um.apiBaseUrl ++ "/users")],
         ((data.map (fun r => (parsePerson r).2))).flatten
           ++ [.log "Users loaded from API:"]) := by
  simp only [UserManager.loadAllPeople, loadAllPeopleTry, hs, if_true,
    List.map_map]
  rfl

/-- With at most five medications, parsing back the serialized payload
rebuilds the person exactly, with no warning emitted: `new Date` undoes
`toISOString` on each refill date and all other fields are copied verbatim. -/
theorem parsePerson_serializePerson (p : Person) (h : p.medications.length ≤ 5) :
    parsePerson (serializePerson p) = (p, []) := by
  have hcomp : parseMedication ∘ serializeMedication = id := by
    funext m
    exact parseMedication_serializeMedication m
  obtain ⟨h1, h2⟩ := parsePerson_spec (serializePerson p)
  have hmeds : (serializePerson p).medications.take 5
      = p.medications.map serializeMedication := by
    simp only [serializePerson]
    exact List.take_of_length_le (by simpa using h)
  have h0 : (serializePerson p).medications.length - 5 = 0 := by
    simp only [serializePerson, List.length_map]
    omega
  have hfst : (parsePerson (serializePerson p)).1 = p := by
    rw [h1, hmeds]
    rw [List.map_map, hcomp, List.map_id]
    rfl
  have hsnd : (parsePerson (serializePerson p)).2 = [] := by
    rw [h2, h0]
    rfl
  rw [Prod.ext_iff]
  exact ⟨hfst, hsnd⟩

/-! ### Sample inputs used by the witnesses -/

/-- A sample medication. -/
def aspirin : Medication := ⟨"Aspirin", 2, false, 1704067200000⟩

/-- A sample person holding one medication. -/
def alex : Person := ⟨"Alex", [aspirin]⟩

/-- A sample manager holding one person. -/
def sampleManager : UserManager := ⟨"https://api.example.com", [alex]⟩

/-- A sample wire record for one medication. -/
def sampleMedRecord : MedRecord := ⟨"X", 1, false, ⟨1704067200000⟩⟩

/-- A sample person record carrying six medications, one more than the cap. -/
def bigRecord : PersonRecord := ⟨"Sam", List.replicate 6 sampleMedRecord⟩

/-- A response array carrying six person records, one more than the cap. -/
def sixRecords : List PersonRecord := List.replicate 6 ⟨"A", []⟩

/-- A single `addPerson` call whose push fails at the transport level. -/
def oneCall : List (Person × FetchOutcome SaveBody) :=
  [(alex, .transportError "down")]

/-! ### Claims -/

/-- **C1** (counterexample): the claimed invariant `len(people) ≤ 5` is not
preserved by every public operation. Starting from a fresh manager (zero
people, within the cap), a successful `loadAllPeople` whose response carries
six person records leaves `people` with six entries: the people-level cap is
checked only in `addPerson`, never on the load path. -/
theorem C1_people_cap_counterexample :
    (UserManager.new "u").people.length ≤ 5 ∧
    ¬ ((UserManager.new "u").loadAllPeople
          (.response 200 (.ok sixRecords))).1.people.length ≤ 5 := by
  constructor
  · decide
  · decide

/-- **C1** (amended): starting from a state with `len(people) ≤ 5`, the
operations `addPerson`, `savePersonToServer`, `clearAllDataOnServer`,
`listAll` produce states with `len(people) ≤ 5`, and `loadAllPeople`
preserves the state whenever its `try` block throws; but a successful
`loadAllPeople` sets `len(people)` to the number of records in the response,
which may exceed 5 — the cap is not enforced there. -/
theorem C1_people_cap (um : UserManager) (h : um.people.length ≤ 5) :
    (∀ p o, (um.addPerson p o).1.people.length ≤ 5) ∧
    (∀ p o, (um.savePersonToServer p o).1.people.length ≤ 5) ∧
    (∀ o, (um.clearAllDataOnServer o).1.people.length ≤ 5) ∧
    um.listAll.1.people.length ≤ 5 ∧
    (∀ o msg, loadAllPeopleTry o = .error msg → (um.loadAllPeople o).1 = um) ∧
    (∀ s data, statusOk s = true →
        (um.loadAllPeople (.response s (.ok data))).1.people.length
          = data.length) := by
  refine ⟨?_, ?_, ?_, h, ?_, ?_⟩
  · intro p o
    by_cases hge : 5 ≤ um.people.length
    · rw [UserManager.addPerson_ge um p o hge]
      exact h
    · rw [(UserManager.addPerson_lt um p o (by omega)).1]
      simp
      omega
  · intro p o
    rw [UserManager.savePersonToServer_fst]
    exact h
  · intro o
    cases o with
    | transportError msg => exact h
    | response s b => simp [UserManager.clearAllDataOnServer]
  · intro o msg hmsg
    simp [UserManager.loadAllPeople, hmsg]
  · intro s data hs
    rw [UserManager.loadAllPeople_success um s data hs]
    simp

/-- **C1** witness. -/
theorem C1_people_cap_witness :
    sampleManager.people.length ≤ 5 ∧
    (sampleManager.addPerson alex (.transportError "down")).1.people.length ≤ 5 :=
  ⟨by decide, (C1_people_cap sampleManager (by decide)).1 alex (.transportError "down")⟩

/-- **C2**: serializing a person with at most five medications to the write
payload and parsing an equivalent read-response record back yields a person
with the same name and the same number of medications, in which every
medication's `name`, `frequencyPerDay` and `taken` are preserved exactly and
every refill date denotes the same calendar date. -/
theorem C2_roundtrip (p : Person) (h : p.medications.length ≤ 5) :
    (parsePerson (serializePerson p)).1.name = p.name ∧
    (parsePerson (serializePerson p)).1.medications.length
        = p.medications.length ∧
    (∀ i : Nat, ((parsePerson (serializePerson p)).1.medications[i]?).map Medication.name
        = (p.medications[i]?).map Medication.name) ∧
    (∀ i : Nat, ((parsePerson (serializePerson p)).1.medications[i]?).map
            Medication.frequencyPerDay
        = (p.medications[i]?).map Medication.frequencyPerDay) ∧
    (∀ i : Nat, ((parsePerson (serializePerson p)).1.medications[i]?).map
            Medication.taken
        = (p.medications[i]?).map Medication.taken) ∧
    (∀ i : Nat, ((parsePerson (serializePerson p)).1.medications[i]?).map
            (fun m : Medication => calendarDate m.refillDate)
        = (p.medications[i]?).map (fun m : Medication => calendarDate m.refillDate)) := by
  rw [parsePerson_serializePerson p h]
  exact ⟨rfl, rfl, fun _ => rfl, fun _ => rfl, fun _ => rfl, fun _ => rfl⟩

/-- **C2** witness. -/
theorem C2_roundtrip_witness :
    alex.medications.length ≤ 5 ∧
    (parsePerson (serializePerson alex)).1.name = alex.name :=
  ⟨by decide, (C2_roundtrip alex (by decide)).1⟩

/-- **C3**: on a successful `loadAllPeople` response, every record is rebuilt
into a fresh person through the capacity-checked `addMedication` path, so a
record carrying more than five medications yields a person holding exactly
the first five (in record order) with one warning per excess entry; and the
local `people` list is replaced wholesale by the rebuilt list — the previous
value of `people` does not occur in the result. -/
theorem C3_load_reconstruction (um : UserManager) (s : Nat)
    (data : List PersonRecord) (hs : statusOk s = true) :
    (um.loadAllPeople (.response s (.ok data))).1.people
        = data.map (fun r => (parsePerson r).1) ∧
    ∀ rec : PersonRecord, 5 < rec.medications.length →
      (parsePerson rec).1.medications
          = (rec.medications.take 5).map parseMedication ∧
      (parsePerson rec).1.medications.length = 5 ∧
      (parsePerson rec).2
          = List.replicate (rec.medications.length - 5)
              (.warn (rec.name ++ " already has 5 medications.")) := by
  constructor
  · rw [UserManager.loadAllPeople_success um s data hs]
  · intro rec hrec
    obtain ⟨h1, h2⟩ := parsePerson_spec rec
    refine ⟨?_, ?_, h2⟩
    · rw [h1]
    · rw [h1]
      simp [List.length_take]
      omega

/-- **C3** witness. -/
theorem C3_load_reconstruction_witness :
    statusOk 200 = true ∧
    5 < bigRecord.medications.length ∧
    (sampleManager.loadAllPeople (.response 200 (.ok [bigRecord]))).1.people
        = [(parsePerson bigRecord).1] ∧
    (parsePerson bigRecord).1.medications.length = 5 := by
  have h := C3_load_reconstruction sampleManager 200 [bigRecord] (by decide)
  exact ⟨by decide, by decide, by simpa using h.1,
    (h.2 bigRecord (by decide)).2.1⟩

/-- **C4**: whenever the delete request completes — whatever the status code,
which is never inspected — `clearAllDataOnServer` clears the local `people`
list to empty; on a transport-level failure the error is caught and logged
and the manager (in particular `people`) is left unchanged. -/
theorem C4_clear_all (um : UserManager) :
    (∀ s : Nat, (um.clearAllDataOnServer (.response s ())).1.people = [] ∧
        (um.clearAllDataOnServer (.response s ())).2.2
            = [.log "All user data cleared on server"]) ∧
    ∀ msg,
      (um.clearAllDataOnServer (.transportError msg)).1 = um ∧
      (um.clearAllDataOnServer (.transportError msg)).2.2
          = [.error ("Failed to clear data: " ++ msg)] := by
  exact ⟨fun _ => ⟨rfl, rfl⟩, fun _ => ⟨rfl, rfl⟩⟩

/-- **C5**: below the cap, `addPerson` appends the person to the local list
before the push is attempted, and the append persists for every outcome of
the push — including transport failure and non-success statuses; the one
`POST` issued carries the serialization of that person. -/
theorem C5_addPerson_local_append (um : UserManager) (person : Person)
    (o : FetchOutcome SaveBody) (h : um.people.length < 5) :
    (um.addPerson person o).1.people = um.people ++ [person] ∧
    (um.addPerson person o).1.people.getLast? = some person ∧
    (um.addPerson person o).2.1
        = [Request.post (um.apiBaseUrl ++ "/users") (serializePerson person)] := by
  obtain ⟨h1, h2⟩ := UserManager.addPerson_lt um person o h
  refine ⟨by rw [h1], ?_, h2⟩
  rw [h1]
  simp

/-- **C5** witness. -/
theorem C5_addPerson_local_append_witness :
    sampleManager.people.length < 5 ∧
    (sampleManager.addPerson alex (.transportError "down")).1.people
        = sampleManager.people ++ [alex] :=
  ⟨by decide,
    (C5_addPerson_local_append sampleManager alex (.transportError "down")
      (by decide)).1⟩

/-- **C6**: `savePersonToServer` never propagates a failure: whatever the
fetch outcome it returns normally with the manager unchanged; a non-success
status makes its `try` block throw a local error carrying the status code,
and every failure — bad status, transport error, body-read error — is caught
and logged as a single `console.error` line. -/
theorem C6_save_never_propagates (um : UserManager) (person : Person) :
    (∀ o, (um.savePersonToServer person o).1 = um) ∧
    (∀ s : Nat, ∀ b, statusOk s = false →
        savePersonTry person (.response s b)
            = .error ("Error saving person: " ++ toString s)) ∧
    (∀ s : Nat, ∀ b, statusOk s = false →
        (um.savePersonToServer person (.response s b)).2.2
            = [.error ("Failed to save user: "
                ++ ("Error saving person: " ++ toString s))]) ∧
    (∀ msg, (um.savePersonToServer person (.transportError msg)).2.2
        = [.error ("Failed to save user: " ++ msg)]) ∧
    (∀ s : Nat, ∀ msg, statusOk s = true →
        (um.savePersonToServer person (.response s (.error msg))).2.2
            = [.error ("Failed to save user: " ++ msg)]) := by
  refine ⟨fun o => UserManager.savePersonToServer_fst um person o, ?_, ?_, ?_, ?_⟩
  · intro s b hs
    simp [savePersonTry, hs]
  · intro s b hs
    simp [UserManager.savePersonToServer, savePersonTry, hs]
  · intro msg
    rfl
  · intro s msg hs
    simp [UserManager.savePersonToServer, savePersonTry, hs]

/-- **C6** witness. -/
theorem C6_save_never_propagates_witness :
    statusOk 500 = false ∧
    (sampleManager.savePersonToServer alex (.response 500 (.ok none))).1
        = sampleManager ∧
    (sampleManager.savePersonToServer alex (.response 500 (.ok none))).2.2
        = [.error ("Failed to save user: "
            ++ ("Error saving person: " ++ toString (500 : Nat)))] := by
  have h := C6_save_never_propagates sampleManager alex
  exact ⟨by decide, h.1 (.response 500 (.ok none)),
    h.2.2.1 500 (.ok none) (by decide)⟩

/-- **C7**: `loadAllPeople` is atomic on error: on a transport failure, a
non-success status, or a body-read failure, the manager — in particular the
`people` list — is left exactly as it was, and the error is caught and
logged as a single `console.error` line. -/
theorem C7_load_atomic_on_error (um : UserManager) :
    (∀ msg, (um.loadAllPeople (.transportError msg)).1 = um ∧
        (um.loadAllPeople (.transportError msg)).2.2
            = [.error ("Failed to load users: " ++ msg)]) ∧
    (∀ s : Nat, ∀ b, statusOk s = false →
        (um.loadAllPeople (.response s b)).1 = um ∧
        (um.loadAllPeople (.response s b)).2.2
            = [.error ("Failed to load users: "
                ++ ("Error loading data: " ++ toString s))]) ∧
    (∀ s : Nat, ∀ msg, statusOk s = true →
        (um.loadAllPeople (.response s (.error msg))).1 = um ∧
        (um.loadAllPeople (.response s (.error msg))).2.2
            = [.error ("Failed to load users: " ++ msg)]) := by
  refine ⟨fun msg => ⟨rfl, rfl⟩, ?_, ?_⟩
  · intro s b hs
    constructor <;> simp [UserManager.loadAllPeople, loadAllPeopleTry, hs]
  · intro s msg hs
    constructor <;> simp [UserManager.loadAllPeople, loadAllPeopleTry, hs]

/-- **C7** witness. -/
theorem C7_load_atomic_on_error_witness :
    statusOk 404 = false ∧
    (sampleManager.loadAllPeople (.response 404 (.ok []))).1 = sampleManager := by
  have h := C7_load_atomic_on_error sampleManager
  exact ⟨by decide, (h.2.1 404 (.ok []) (by decide)).1⟩

/-- **C8**: a sequence of at most five `addMedication` calls on one freshly
constructed person ends with exactly the given medications in insertion
order and no warning; an arbitrary sequence keeps only the first five, with
one warning per excess call; and a single call on a full person is a no-op
that emits one warning naming the person. -/
theorem C8_addMedication_sequence (name : String) (ms : List Medication) :
    (ms.length ≤ 5 →
        ((Person.new name).addMedList ms).1.medications = ms ∧
        ((Person.new name).addMedList ms).2 = []) ∧
    ((Person.new name).addMedList ms).1.medications = ms.take 5 ∧
    ((Person.new name).addMedList ms).2
        = List.replicate (ms.length - 5)
            (.warn (name ++ " already has 5 medications.")) ∧
    (∀ p : Person, ∀ m : Medication, 5 ≤ p.medications.length →
        p.addMedication m
            = (p, [.warn (p.name ++ " already has 5 medications.")])) := by
  obtain ⟨h1, h2⟩ :=
    Person.addMedList_spec ms (Person.new name) (by simp [Person.new])
  have hmeds : ((Person.new name).addMedList ms).1.medications = ms.take 5 := by
    rw [h1]
    simp [Person.new]
  have hlogs : ((Person.new name).addMedList ms).2
      = List.replicate (ms.length - 5)
          (.warn (name ++ " already has 5 medications.")) := by
    rw [h2]
    simp [Person.new]
  refine ⟨?_, hmeds, hlogs, ?_⟩
  · intro hle
    have h0 : ms.length - 5 = 0 := by omega
    rw [hmeds, hlogs, h0]
    exact ⟨List.take_of_length_le hle, rfl⟩
  · intro p m hge
    simp [Person.addMedication, hge]

/-- **C8** witness. -/
theorem C8_addMedication_sequence_witness :
    [aspirin].length ≤ 5 ∧
    ((Person.new "Alex").addMedList [aspirin]).1.medications = [aspirin] :=
  ⟨by decide, ((C8_addMedication_sequence "Alex" [aspirin]).1 (by decide)).1⟩

/-- **C9**: a sequence of at most five `addPerson` calls on one fresh manager
ends with exactly the given persons in call order; an arbitrary sequence
keeps only the first five; and a call on a full manager is a no-op that
emits one warning and issues no request at all. -/
theorem C9_addPerson_sequence (url : String)
    (calls : List (Person × FetchOutcome SaveBody)) :
    (calls.length ≤ 5 →
        ((UserManager.new url).addPeople calls).1.people = calls.map Prod.fst) ∧
    ((UserManager.new url).addPeople calls).1.people
        = (calls.map Prod.fst).take 5 ∧
    ((UserManager.new url).addPeople calls).1.people.length
        = min calls.length 5 ∧
    (∀ um : UserManager, ∀ p o, 5 ≤ um.people.length →
        um.addPerson p o = (um, [], [.warn "Cannot add more than 5 people."])) := by
  have h := UserManager.addPeople_people calls (UserManager.new url)
    (by simp [UserManager.new])
  have hpeople : ((UserManager.new url).addPeople calls).1.people
      = (calls.map Prod.fst).take 5 := by
    rw [h]
    simp [UserManager.new]
  refine ⟨?_, hpeople, ?_, fun um p o hge => UserManager.addPerson_ge um p o hge⟩
  · intro hle
    rw [hpeople]
    exact List.take_of_length_le (by simpa using hle)
  · rw [hpeople]
    simp [List.length_take, Nat.min_comm]

/-- **C9** witness. -/
theorem C9_addPerson_sequence_witness :
    oneCall.length ≤ 5 ∧
    ((UserManager.new "u").addPeople oneCall).1.people = oneCall.map Prod.fst :=
  ⟨by decide, (C9_addPerson_sequence "u" oneCall).1 (by decide)⟩

/-- **C10**: a successful `loadAllPeople` over an array of N records always
yields a local `people` list of length exactly N whose i-th person is
rebuilt from the i-th record — response order preserved, with no cap at the
people level even when N exceeds 5. -/
theorem C10_load_success_order (um : UserManager) (s : Nat)
    (data : List PersonRecord) (hs : statusOk s = true) :
    (um.loadAllPeople (.response s (.ok data))).1.people.length = data.length ∧
    ∀ i : Nat, (um.loadAllPeople (.response s (.ok data))).1.people[i]?
        = (data[i]?).map (fun r => (parsePerson r).1) := by
  rw [UserManager.loadAllPeople_success um s data hs]
  constructor
  · simp
  · intro i
    simp

/-- **C10** witness: a response with six records — one more than the cap —
fills `people` with six reconstructed persons. -/
theorem C10_load_success_order_witness :
    statusOk 200 = true ∧
    ((UserManager.new "u").loadAllPeople
        (.response 200 (.ok sixRecords))).1.people.length = 6 := by
  have h := C10_load_success_order (UserManager.new "u") 200 sixRecords (by decide)
  exact ⟨by decide, by rw [h.1]; decide⟩

end PillReminder
